import Mathlib

/-!
Shallow embedding of `src/dummydb/main.py` (the MockDB in-memory document
store): JSON-like Python values, the `Table` record operations
(insert/find/update/delete) and the `Database` collection registry with its
JSON persistence path (`save_to_file` / `load_from_file`).

Conventions of the embedding:
- A Python JSON-like value is `JVal`; a Python dict is modelled as an
  association list in insertion order (Python dicts preserve insertion order
  and have no duplicate keys; the operations below implement Python dict
  semantics on such lists).
- Python `==` on JSON trees is modelled by structural equality (`JVal.beq`,
  proved equivalent to `=`); records and queries are kept in canonical key
  order so this coincides with Python value equality on the modelled inputs.
- `deepcopy` at the value level is the identity (a pure value is its own
  independent copy); the reference/aliasing behaviour of `Table.update`,
  which the source does NOT guard with a deepcopy, is modelled separately by
  an explicit heap of objects (`HObj`/`Heap`) further below.
- Fallible calls return `Except PyErr` or pair the post-state with
  `Option PyErr`, mirroring which Python exception escapes.
-/

namespace DummyDB

/-- JSON-representable Python value: None, bool, number, string, list, dict
(dict as association list in insertion order). -/
inductive JVal where
  | null
  | bool (b : Bool)
  | num (n : Int)
  | str (s : String)
  | arr (xs : List JVal)
  | obj (fields : List (String × JVal))
deriving Repr

mutual

/-- Structural equality on JSON trees, modelling Python `==` on the values
produced by `json.load` (dicts kept in canonical key order). -/
def JVal.beq : JVal → JVal → Bool
  | .null, .null => true
  | .bool a, .bool b => a == b
  | .num a, .num b => a == b
  | .str a, .str b => a == b
  | .arr xs, .arr ys => JVal.beqList xs ys
  | .obj fs, .obj gs => JVal.beqFields fs gs
  | _, _ => false

/-- Elementwise equality of JSON arrays. -/
def JVal.beqList : List JVal → List JVal → Bool
  | [], [] => true
  | x :: xs, y :: ys => JVal.beq x y && JVal.beqList xs ys
  | _, _ => false

/-- Entrywise equality of dict field lists. -/
def JVal.beqFields : List (String × JVal) → List (String × JVal) → Bool
  | [], [] => true
  | (k, v) :: fs, (k2, v2) :: gs => k == k2 && JVal.beq v v2 && JVal.beqFields fs gs
  | _, _ => false

end

mutual

theorem JVal.beq_refl : ∀ a, JVal.beq a a = true
  | .null => rfl
  | .bool b => by simp [JVal.beq]
  | .num n => by simp [JVal.beq]
  | .str s => by simp [JVal.beq]
  | .arr xs => by simp [JVal.beq, JVal.beqList_refl xs]
  | .obj fs => by simp [JVal.beq, JVal.beqFields_refl fs]

theorem JVal.beqList_refl : ∀ xs, JVal.beqList xs xs = true
  | [] => rfl
  | x :: xs => by simp [JVal.beqList, JVal.beq_refl x, JVal.beqList_refl xs]

theorem JVal.beqFields_refl : ∀ fs, JVal.beqFields fs fs = true
  | [] => rfl
  | (k, v) :: fs => by simp [JVal.beqFields, JVal.beq_refl v, JVal.beqFields_refl fs]

end

mutual

theorem JVal.eq_of_beq : ∀ a b, JVal.beq a b = true → a = b
  | .null, .null, _ => rfl
  | .bool a, .bool b, h => by simp [JVal.beq] at h; simp [h]
  | .num a, .num b, h => by simp [JVal.beq] at h; simp [h]
  | .str a, .str b, h => by simp [JVal.beq] at h; simp [h]
  | .arr xs, .arr ys, h => by
      simp only [JVal.beq] at h
      simp [JVal.eqList_of_beq xs ys h]
  | .obj fs, .obj gs, h => by
      simp only [JVal.beq] at h
      simp [JVal.eqFields_of_beq fs gs h]
  | .null, .bool _, h => by simp [JVal.beq] at h
  | .null, .num _, h => by simp [JVal.beq] at h
  | .null, .str _, h => by simp [JVal.beq] at h
  | .null, .arr _, h => by simp [JVal.beq] at h
  | .null, .obj _, h => by simp [JVal.beq] at h
  | .bool _, .null, h => by simp [JVal.beq] at h
  | .bool _, .num _, h => by simp [JVal.beq] at h
  | .bool _, .str _, h => by simp [JVal.beq] at h
  | .bool _, .arr _, h => by simp [JVal.beq] at h
  | .bool _, .obj _, h => by simp [JVal.beq] at h
  | .num _, .null, h => by simp [JVal.beq] at h
  | .num _, .bool _, h => by simp [JVal.beq] at h
  | .num _, .str _, h => by simp [JVal.beq] at h
  | .num _, .arr _, h => by simp [JVal.beq] at h
  | .num _, .obj _, h => by simp [JVal.beq] at h
  | .str _, .null, h => by simp [JVal.beq] at h
  | .str _, .bool _, h => by simp [JVal.beq] at h
  | .str _, .num _, h => by simp [JVal.beq] at h
  | .str _, .arr _, h => by simp [JVal.beq] at h
  | .str _, .obj _, h => by simp [JVal.beq] at h
  | .arr _, .null, h => by simp [JVal.beq] at h
  | .arr _, .bool _, h => by simp [JVal.beq] at h
  | .arr _, .num _, h => by simp [JVal.beq] at h
  | .arr _, .str _, h => by simp [JVal.beq] at h
  | .arr _, .obj _, h => by simp [JVal.beq] at h
  | .obj _, .null, h => by simp [JVal.beq] at h
  | .obj _, .bool _, h => by simp [JVal.beq] at h
  | .obj _, .num _, h => by simp [JVal.beq] at h
  | .obj _, .str _, h => by simp [JVal.beq] at h
  | .obj _, .arr _, h => by simp [JVal.beq] at h

theorem JVal.eqList_of_beq : ∀ xs ys, JVal.beqList xs ys = true → xs = ys
  | [], [], _ => rfl
  | [], _ :: _, h => by simp [JVal.beqList] at h
  | _ :: _, [], h => by simp [JVal.beqList] at h
  | x :: xs, y :: ys, h => by
      simp only [JVal.beqList, Bool.and_eq_true] at h
      simp [JVal.eq_of_beq x y h.1, JVal.eqList_of_beq xs ys h.2]

theorem JVal.eqFields_of_beq : ∀ fs gs, JVal.beqFields fs gs = true → fs = gs
  | [], [], _ => rfl
  | [], _ :: _, h => by simp [JVal.beqFields] at h
  | _ :: _, [], h => by simp [JVal.beqFields] at h
  | (k, v) :: fs, (k2, v2) :: gs, h => by
      simp only [JVal.beqFields, Bool.and_eq_true, beq_iff_eq] at h
      simp [h.1.1, JVal.eq_of_beq v v2 h.1.2, JVal.eqFields_of_beq fs gs h.2]

end

instance : DecidableEq JVal := fun a b =>
  if h : JVal.beq a b = true then isTrue (JVal.eq_of_beq a b h)
  else isFalse (fun he => h (he ▸ JVal.beq_refl a))

theorem JVal.beq_iff_eq (a b : JVal) : JVal.beq a b = true ↔ a = b :=
  ⟨JVal.eq_of_beq a b, fun h => h ▸ JVal.beq_refl a⟩

/-- A stored record / a query / a patch: a Python dict from field name to
value, as an association list in insertion order with no duplicate keys. -/
abbrev Record := List (String × JVal)

/-- Python truthiness of a JSON-like value (`not query` in `Table.find`):
None, False, 0, the empty string, the empty list and the empty dict are
falsy; everything else is truthy. -/
def JVal.falsy : JVal → Bool
  | .null => true
  | .bool b => !b
  | .num n => n == 0
  | .str s => s.isEmpty
  | .arr xs => xs.isEmpty
  | .obj fs => fs.isEmpty

/-- Whether a value is a Python dict (`isinstance(x, dict)`). -/
def JVal.isObj : JVal → Bool
  | .obj _ => true
  | _ => false

/-- Python exceptions that the source can raise. -/
inductive PyErr where
  | typeError
  | attributeError
  | valueError
  | keyError
  | ioError
  | jsonDecodeError
deriving Repr, DecidableEq

/-- Python `d.get(k)` without default, on a dict in insertion order kept as
an association list (dicts have unique keys, so this is the unique
binding). Generic in the bound value so the same definition serves dicts of
values and dicts of object references. -/
def getKey {α : Type} (r : List (String × α)) (k : String) : Option α :=
  match r with
  | [] => none
  | (k2, v) :: rest => if k2 = k then some v else getKey rest k

/-- Python `d[k] = v` on a dict in insertion order: an existing binding for
`k` is overwritten in place, a new key is appended at the end. -/
def setKey {α : Type} (r : List (String × α)) (k : String) (v : α) : List (String × α) :=
  match r with
  | [] => [(k, v)]
  | (k2, v2) :: rest => if k2 = k then (k, v) :: rest else (k2, v2) :: setKey rest k v

/-- Python `d.update(p)`: every binding of `p` is written into `d`, left to
right, each value taken over as-is. -/
def dictMerge {α : Type} (r patch : List (String × α)) : List (String × α) :=
  patch.foldl (fun acc kv => setKey acc kv.1 kv.2) r

/-- Python `record.update(new_data)` (main.py line 82) at the value level. -/
def dictUpdate (r patch : Record) : Record :=
  dictMerge r patch

/-- The matching predicate shared by find, update and delete (main.py lines
57-58, 81 and 99): `all(record.get(k) == v for k, v in query.items())`.
Note `record.get(k)` yields None when `k` is absent, so the comparison is
against `JVal.null` in that case. -/
def matchesQ (r : Record) (q : Record) : Bool :=
  q.all fun kv => JVal.beq ((getKey r kv.1).getD JVal.null) kv.2

namespace Table

/-- Table.insert (main.py lines 26-42): requires a dict, appends a deep copy
(at the value level, the record itself) and returns True. -/
def insert (records : List Record) (data : JVal) : Except PyErr (List Record × Bool) :=
  match data with
  | .obj fields => .ok (records ++ [fields], true)
  | _ => .error .typeError

/-- Table.find (main.py lines 44-60). `query` is optional (default None).
A falsy query (None, 0, empty string/list/dict, False) returns a deep copy
of all records. A truthy query is consumed by `query.items()` inside the
list comprehension, so a truthy non-dict raises AttributeError only when at
least one record is examined; over an empty record list the comprehension
returns [] untouched by the query. -/
def find (records : List Record) (query : Option JVal) : Except PyErr (List Record) :=
  match query with
  | none => .ok records
  | some q =>
    if q.falsy then .ok records
    else
      match q with
      | .obj qf => .ok (records.filter fun r => matchesQ r qf)
      | _ =>
        match records with
        | [] => .ok []
        | _ :: _ => .error .attributeError

/-- The loop of Table.update (main.py lines 79-84): each record is matched
against its own pre-update state (the source mutates a record only after
evaluating its match, and records share no structure with each other since
insert deep-copies), then patched in place via `record.update(new_data)`. -/
def updateGo (q patch : Record) : List Record → List Record × Nat
  | [] => ([], 0)
  | r :: rest =>
    let tail := updateGo q patch rest
    if matchesQ r q then (dictUpdate r patch :: tail.1, tail.2 + 1)
    else (r :: tail.1, tail.2)

/-- Table.update (main.py lines 62-84): both arguments must be dicts
(TypeError otherwise), then the loop above runs and the match count is
returned. -/
def update (records : List Record) (query new_data : JVal) :
    Except PyErr (List Record × Nat) :=
  match query, new_data with
  | .obj qf, .obj pf => .ok (updateGo qf pf records)
  | _, _ => .error .typeError

/-- Table.delete (main.py lines 86-101), given a dict query: keeps the
records that do not match, returns the removed count as
`before - len(after)`. -/
def deleteD (records : List Record) (qf : Record) : List Record × Nat :=
  let remaining := records.filter fun r => !matchesQ r qf
  (remaining, records.length - remaining.length)

/-- Table.delete (main.py lines 86-101) with its argument taken dynamically:
the source has NO isinstance check; `query.items()` is only evaluated inside
the list comprehension, once per stored record. Over an empty record list
the comprehension finishes without touching the query, reassigns `[]` and
returns 0; over a non-empty list a non-dict query raises AttributeError at
the first record, before `self.records` is reassigned. -/
def delete (records : List Record) (query : JVal) : Except PyErr (List Record × Nat) :=
  match records with
  | [] => .ok ([], 0)
  | _ :: _ =>
    match query with
    | .obj qf => .ok (deleteD records qf)
    | _ => .error .attributeError

end Table

/-- The Database state (main.py line 129): `self.tables`, a Python dict from
table name to Table, in insertion order. Each entry carries the table's
`records` attribute as a raw value — normally a list of dicts, but
`load_from_file` assigns whatever the parsed document holds without
validation, so the field is an arbitrary `JVal` (a list of records `rs` is
stored as `JVal.arr` of `JVal.obj` values). -/
abbrev DB := List (String × JVal)

/-- Whether a table of that name exists (`name in self.tables`). -/
def hasTable (db : DB) (name : String) : Bool :=
  db.any fun kv => kv.1 = name

namespace Database

/-- Database.create_table (main.py lines 131-147): ValueError on a name
collision, otherwise a fresh empty table is added under `name`. -/
def create_table (db : DB) (name : String) : Except PyErr DB :=
  if hasTable db name then .error .valueError
  else .ok (db ++ [(name, .arr [])])

/-- Database.get_table (main.py lines 149-164): KeyError when absent. -/
def get_table (db : DB) (name : String) : Except PyErr JVal :=
  match db.find? (fun kv => kv.1 = name) with
  | some kv => .ok kv.2
  | none => .error .keyError

/-- Database.drop_table (main.py lines 166-179): removes the table if
present and reports whether it existed. -/
def drop_table (db : DB) (name : String) : DB × Bool :=
  (db.filter (fun kv => kv.1 ≠ name), hasTable db name)

/-- Database.save_to_file (main.py lines 181-189): the written JSON document
is `\x7bk: v.records for k, v in self.tables.items()\x7d`, i.e. the tables dict
itself with each table replaced by its records value, in table insertion
order. The embedding models the document at the parsed-JSON level; writing
then reading the text is the identity on JSON-representable values. -/
def save_to_file (db : DB) : JVal :=
  .obj db

/-- The loop of Database.load_from_file (main.py lines 200-202): for each
top-level key, `create_table` (ValueError on collision, aborting the loop by
exception) then `table.records = records` with the raw unvalidated value.
The result pairs the Database state after the call with the exception that
escaped, if any: tables created by earlier iterations remain. -/
def loadGo (db : DB) : List (String × JVal) → DB × Option PyErr
  | [] => (db, none)
  | (name, records) :: rest =>
    if hasTable db name then (db, some .valueError)
    else loadGo (db ++ [(name, records)]) rest

/-- Database.load_from_file (main.py lines 191-202). The `parsed` argument
is the outcome of `open` + `json.load` (error for a missing file or invalid
JSON, which escape before any mutation). `data.items()` raises
AttributeError when the document is not an object; otherwise the loop above
runs. -/
def load_from_file (db : DB) (parsed : Except PyErr JVal) : DB × Option PyErr :=
  match parsed with
  | .error e => (db, some e)
  | .ok (.obj entries) => loadGo db entries
  | .ok _ => (db, some .attributeError)

end Database

/-!
Heap model of Python object identity, used for the aliasing behaviour of
`Table.update` (main.py line 82, `record.update(new_data)`): a dict maps
keys to object REFERENCES, and `dict.update` copies the bindings of the
patch — the addresses — not the objects behind them. `insert` and `find`
deep-copy (fresh objects); `update` does not.
-/

/-- A heap address (Python object identity). -/
abbrev Addr := Nat

/-- A heap object: an immutable scalar, a mutable list of references, or a
mutable dict of references. -/
inductive HObj where
  | prim (v : JVal)
  | list (elems : List Addr)
  | dict (fields : List (String × Addr))
deriving Repr, DecidableEq

/-- The heap: address `a` denotes the object at index `a`. -/
abbrev Heap := List HObj

/-- In-place mutation of the object at an address (e.g. a Python
`lst.append` or dict rebinding performed by the caller after update). -/
def Heap.mutate (h : Heap) (a : Addr) (o : HObj) : Heap :=
  h.set a o

/-- Python `record.update(new_data)` on the heap (main.py line 82): both
addresses must hold dicts; the target cell is rewritten with the merged
field list, installing the ADDRESSES held by the patch as-is — the objects
behind them are not copied. -/
def dictUpdateH (h : Heap) (target patch : Addr) : Option Heap :=
  match h.get? target, h.get? patch with
  | some (.dict fs), some (.dict ps) => some (h.set target (.dict (dictMerge fs ps)))
  | _, _ => none

/-- Read the JSON value an address denotes, following references
(fuel-bounded; `none` on dangling references or exhausted fuel). -/
def readVal : Nat → Heap → Addr → Option JVal
  | 0, _, _ => none
  | fuel + 1, h, a =>
    match h.get? a with
    | some (.prim v) => some v
    | some (.list es) => (es.mapM (readVal fuel h)).map .arr
    | some (.dict fs) =>
      (fs.mapM (fun kv => (readVal fuel h kv.2).map (fun v => (kv.1, v)))).map .obj
    | none => none

/-- The match of one record against the query's field list on the heap
(main.py line 81): `record.get(k)` is None when absent, and `==` compares
the denoted values deeply. -/
def matchHGo (fuel : Nat) (h : Heap) (rf : List (String × Addr)) :
    List (String × Addr) → Option Bool
  | [] => some true
  | (k, va) :: rest =>
    let lhs : Option JVal :=
      match getKey rf k with
      | some ra => readVal fuel h ra
      | none => some JVal.null
    match lhs, readVal fuel h va with
    | some l, some r => if l = r then matchHGo fuel h rf rest else some false
    | _, _ => none

/-- The loop of Table.update on the heap (main.py lines 79-84): each record
address is matched against the current heap, then mutated in place via
`record.update(new_data)`; the heap threads left to right. -/
def updateHGo (fuel : Nat) (qf : List (String × Addr)) (patch : Addr) :
    Heap → List Addr → Option (Heap × Nat)
  | h, [] => some (h, 0)
  | h, r :: rest =>
    match h.get? r with
    | some (.dict rf) =>
      match matchHGo fuel h rf qf with
      | some true =>
        match dictUpdateH h r patch with
        | some h2 =>
          match updateHGo fuel qf patch h2 rest with
          | some (h3, n) => some (h3, n + 1)
          | none => none
        | none => none
      | some false => updateHGo fuel qf patch h rest
      | none => none
    | _ => none

/-- Table.update on the heap (main.py lines 62-84): both arguments must be
dicts (TypeError modelled as `none`), then the loop runs over the table's
record addresses. -/
def updateH (fuel : Nat) (h : Heap) (records : List Addr) (query patch : Addr) :
    Option (Heap × Nat) :=
  match h.get? query, h.get? patch with
  | some (.dict qf), some (.dict _) => updateHGo fuel qf patch h records
  | _, _ => none

/-!
Helper lemmas about the dict operations, the matching predicate, the update
and delete loops and the load loop.
-/

theorem getKey_setKey_same {α : Type} (fs : List (String × α)) (k : String) (v : α) :
    getKey (setKey fs k v) k = some v := by
  induction fs with
  | nil => simp [setKey, getKey]
  | cons kv rest ih =>
    obtain ⟨k2, v2⟩ := kv
    by_cases h : k2 = k
    · simp [setKey, getKey, h]
    · simp [setKey, getKey, h, ih]

theorem getKey_setKey_other {α : Type} (fs : List (String × α)) (k k2 : String) (v : α)
    (h : k2 ≠ k) : getKey (setKey fs k v) k2 = getKey fs k2 := by
  induction fs with
  | nil => simp [setKey, getKey, Ne.symm h]
  | cons kv rest ih =>
    obtain ⟨k3, v3⟩ := kv
    by_cases h3 : k3 = k
    · subst h3
      simp [setKey, getKey, Ne.symm h]
    · simp only [setKey, if_neg h3, getKey]
      rw [ih]

theorem getKey_eq_none_iff {α : Type} (fs : List (String × α)) (k : String) :
    getKey fs k = none ↔ k ∉ fs.map Prod.fst := by
  induction fs with
  | nil => simp [getKey]
  | cons kv rest ih =>
    obtain ⟨k2, v2⟩ := kv
    by_cases h : k2 = k
    · subst h
      simp [getKey]
    · simp [getKey, h, ih, Ne.symm h]

theorem dictMerge_nil {α : Type} (fs : List (String × α)) : dictMerge fs [] = fs := rfl

theorem dictMerge_cons {α : Type} (fs ps : List (String × α)) (k : String) (v : α) :
    dictMerge fs ((k, v) :: ps) = dictMerge (setKey fs k v) ps := rfl

theorem getKey_dictMerge_notin {α : Type} (fs ps : List (String × α)) (k : String)
    (h : k ∉ ps.map Prod.fst) : getKey (dictMerge fs ps) k = getKey fs k := by
  induction ps generalizing fs with
  | nil => rfl
  | cons kv rest ih =>
    obtain ⟨k2, v2⟩ := kv
    simp only [List.map_cons, List.mem_cons] at h
    push_neg at h
    rw [dictMerge_cons, ih _ h.2, getKey_setKey_other fs k2 k v2 h.1]

theorem getKey_dictMerge_mem {α : Type} (fs ps : List (String × α)) (k : String) (v : α)
    (hnd : (ps.map Prod.fst).Nodup) (h : getKey ps k = some v) :
    getKey (dictMerge fs ps) k = some v := by
  induction ps generalizing fs with
  | nil => simp [getKey] at h
  | cons kv rest ih =>
    obtain ⟨k2, v2⟩ := kv
    simp only [List.map_cons, List.nodup_cons] at hnd
    by_cases hk : k2 = k
    · subst hk
      simp [getKey] at h
      subst h
      rw [dictMerge_cons, getKey_dictMerge_notin _ _ _ hnd.1, getKey_setKey_same]
    · simp only [getKey, if_neg hk] at h
      rw [dictMerge_cons, ih _ hnd.2 h]

theorem getKey_dictMerge {α : Type} (fs ps : List (String × α)) (k : String)
    (hnd : (ps.map Prod.fst).Nodup) :
    getKey (dictMerge fs ps) k =
      match getKey ps k with
      | some v => some v
      | none => getKey fs k := by
  cases h : getKey ps k with
  | none => exact getKey_dictMerge_notin fs ps k ((getKey_eq_none_iff ps k).mp h)
  | some v => exact getKey_dictMerge_mem fs ps k v hnd h

theorem matchesQ_iff (r q : Record) :
    matchesQ r q = true ↔ ∀ kv ∈ q, (getKey r kv.1).getD JVal.null = kv.2 := by
  unfold matchesQ
  rw [List.all_eq_true]
  constructor
  · intro h kv hm
    exact JVal.eq_of_beq _ _ (h kv hm)
  · intro h kv hm
    exact (JVal.beq_iff_eq _ _).mpr (h kv hm)

theorem matchesQ_nil (r : Record) : matchesQ r [] = true := rfl

theorem Table.updateGo_eq (q p : Record) (records : List Record) :
    Table.updateGo q p records =
      (records.map (fun r => if matchesQ r q then dictUpdate r p else r),
       (records.filter (fun r => matchesQ r q)).length) := by
  induction records with
  | nil => rfl
  | cons r rest ih =>
    by_cases h : matchesQ r q
    · simp [Table.updateGo, ih, h, List.filter_cons]
    · simp [Table.updateGo, ih, h, List.filter_cons]

theorem length_sub_length_filter_not {α : Type} (l : List α) (p : α → Bool) :
    l.length - (l.filter (fun a => !p a)).length = (l.filter p).length := by
  induction l with
  | nil => rfl
  | cons x xs ih =>
    have hle : (xs.filter (fun a => !p a)).length ≤ xs.length :=
      List.length_filter_le _ xs
    by_cases h : p x <;> simp [List.filter_cons, h] <;> omega

theorem Table.deleteD_count (records : List Record) (qf : Record) :
    (Table.deleteD records qf).2 = (records.filter (fun r => matchesQ r qf)).length := by
  have h2 : (Table.deleteD records qf).2 =
      records.length - (records.filter (fun r => !matchesQ r qf)).length := rfl
  rw [h2, length_sub_length_filter_not]

theorem Table.deleteD_eq (records : List Record) (qf : Record) :
    Table.deleteD records qf =
      (records.filter (fun r => !matchesQ r qf),
       (records.filter (fun r => matchesQ r qf)).length) :=
  Prod.ext rfl (Table.deleteD_count records qf)

theorem hasTable_append (db : DB) (name k : String) (v : JVal) :
    hasTable (db ++ [(name, v)]) k = (hasTable db k || decide (name = k)) := by
  simp [hasTable, List.any_append]

theorem Database.loadGo_fresh (entries : List (String × JVal)) :
    ∀ db : DB, (∀ kv ∈ entries, hasTable db kv.1 = false) →
      (entries.map Prod.fst).Nodup →
      Database.loadGo db entries = (db ++ entries, none) := by
  induction entries with
  | nil => intro db _ _; simp [Database.loadGo]
  | cons kv rest ih =>
    intro db hfresh hnd
    obtain ⟨name, v⟩ := kv
    simp only [List.map_cons, List.nodup_cons] at hnd
    have h1 : hasTable db name = false := hfresh _ (List.mem_cons_self _ _)
    rw [Database.loadGo, if_neg (by simp [h1])]
    have h2 : ∀ kv2 ∈ rest, hasTable (db ++ [(name, v)]) kv2.1 = false := by
      intro kv2 hm
      rw [hasTable_append]
      have := hfresh kv2 (List.mem_cons_of_mem _ hm)
      have hne : name ≠ kv2.1 := by
        intro he
        exact hnd.1 (he ▸ List.mem_map_of_mem Prod.fst hm)
      simp [this, hne]
    rw [ih _ h2 hnd.2]
    simp

theorem Database.loadGo_prefix (entries : List (String × JVal)) :
    ∀ db : DB, ∃ pre post,
      entries = pre ++ post ∧
      (Database.loadGo db entries).1 = db ++ pre ∧
      ((Database.loadGo db entries).2 = none → post = []) ∧
      (∀ e, (Database.loadGo db entries).2 = some e →
        e = .valueError ∧
        ∃ name v rest, post = (name, v) :: rest ∧ hasTable (db ++ pre) name = true) := by
  induction entries with
  | nil =>
    intro db
    exact ⟨[], [], by simp [Database.loadGo], by simp [Database.loadGo],
      fun _ => rfl, fun e he => by simp [Database.loadGo] at he⟩
  | cons kv rest ih =>
    intro db
    obtain ⟨name, v⟩ := kv
    by_cases h : hasTable db name
    · refine ⟨[], (name, v) :: rest, by simp, ?_, ?_, ?_⟩
      · simp [Database.loadGo, h]
      · simp [Database.loadGo, h]
      · intro e he
        simp only [Database.loadGo, if_pos h] at he
        obtain rfl : PyErr.valueError = e := Option.some_inj.mp he
        exact ⟨rfl, name, v, rest, rfl, by simpa using h⟩
    · obtain ⟨pre, post, hsplit, h1, h2, h3⟩ := ih (db ++ [(name, v)])
      refine ⟨(name, v) :: pre, post, by simp [hsplit], ?_, ?_, ?_⟩
      · rw [Database.loadGo, if_neg h, h1]
        simp
      · intro hnone
        rw [Database.loadGo, if_neg h] at hnone
        exact h2 hnone
      · intro e he
        rw [Database.loadGo, if_neg h] at he
        obtain ⟨he1, name2, v2, rest2, hp, ht⟩ := h3 e he
        exact ⟨he1, name2, v2, rest2, hp, by simpa using ht⟩

/-!
The claims.
-/

/-- C1 counterexample: the record with only field "b" LACKS key "a", yet it
matches the query binding "a" to None — `record.get("a")` defaults to None
and `None == None` holds — so find returns it, update counts it and delete
removes it. The claim states that a record lacking a queried key never
matches, regardless of the query's value for it, including null; the code
disagrees at the value null. -/
theorem find_matches_missing_key_on_null_query :
    getKey ([("b", JVal.num 1)] : Record) "a" = none ∧
    matchesQ [("b", JVal.num 1)] [("a", JVal.null)] = true ∧
    Table.find [[("b", JVal.num 1)]] (some (JVal.obj [("a", JVal.null)])) =
      .ok [[("b", JVal.num 1)]] ∧
    Table.delete [[("b", JVal.num 1)]] (JVal.obj [("a", JVal.null)]) = .ok ([], 1) ∧
    Table.update [[("b", JVal.num 1)]] (JVal.obj [("a", JVal.null)]) (JVal.obj []) =
      .ok ([[("b", JVal.num 1)]], 1) :=
  ⟨rfl, rfl, rfl, rfl, rfl⟩

/-- C1 (amended): the shared matching contract of find, update and delete is:
record `r` matches query `Q` iff for every key `k` of `Q`, the value
`r.get(k)` — which is null when `r` lacks `k` — is deep-equal to `Q[k]`.
Consequently a record lacking `k` matches a query binding `k` to null, and
"missing field never matches" holds exactly for non-null query values.
The conjuncts tie the one predicate to all three operations. -/
theorem matching_contract_amended (r q : Record) :
    (matchesQ r q = true ↔ ∀ kv ∈ q, (getKey r kv.1).getD JVal.null = kv.2) ∧
    (∀ records : List Record,
      Table.find records (some (.obj q)) =
        .ok (records.filter fun x => matchesQ x q)) ∧
    (∀ (records : List Record) (pf : Record),
      Table.update records (.obj q) (.obj pf) = .ok (Table.updateGo q pf records) ∧
      (Table.updateGo q pf records).2 =
        (records.filter fun x => matchesQ x q).length) ∧
    (∀ records : List Record,
      Table.delete records (.obj q) =
        .ok (records.filter (fun x => !matchesQ x q),
          (records.filter fun x => matchesQ x q).length)) ∧
    (∀ k, getKey r k = none → matchesQ r [(k, JVal.null)] = true) ∧
    (∀ k v, (k, v) ∈ q → getKey r k = none → v ≠ JVal.null →
      matchesQ r q = false) := by
  refine ⟨matchesQ_iff r q, ?_, ?_, ?_, ?_, ?_⟩
  · intro records
    cases q with
    | nil => simp [Table.find, JVal.falsy, matchesQ_nil]
    | cons kv rest => rfl
  · intro records pf
    exact ⟨rfl, by rw [Table.updateGo_eq]⟩
  · intro records
    cases records with
    | nil => rfl
    | cons a rest =>
      show Except.ok (Table.deleteD (a :: rest) q) = _
      rw [Table.deleteD_eq]
  · intro k hk
    simp [matchesQ, hk, JVal.beq]
  · intro k v hm hnone hne
    cases hb : matchesQ r q with
    | false => rfl
    | true =>
      have h1 := (matchesQ_iff r q).mp hb (k, v) hm
      rw [hnone] at h1
      exact absurd h1.symm hne

/-- C1 witness: the amended contract applied at concrete records: a record
matches its own binding, fails a query on an absent key bound to a non-null
value, and the empty record matches a null-valued query on an absent key. -/
theorem matching_contract_amended_witness :
    matchesQ [("b", JVal.num 1)] [("b", JVal.num 1)] = true ∧
    matchesQ [("b", JVal.num 1)] [("a", JVal.num 2)] = false ∧
    matchesQ [] [("a", JVal.null)] = true := by
  refine ⟨?_, ?_, ?_⟩
  · exact (matching_contract_amended [("b", JVal.num 1)] [("b", JVal.num 1)]).1.mpr
      (by decide)
  · exact (matching_contract_amended [("b", JVal.num 1)] [("a", JVal.num 2)]).2.2.2.2.2
      "a" (JVal.num 2) (by decide) rfl (by decide)
  · exact (matching_contract_amended [] [("a", JVal.null)]).2.2.2.2.1 "a" rfl

/-- C4 counterexample: `5` is not a mapping, yet on the empty collection
`delete(5)` succeeds and returns 0 — the list comprehension never evaluates
`query.items()` over an empty record list, and the source has no isinstance
guard. The claim states delete fails with InvalidArgument for every
collection state including the empty one. -/
theorem delete_nonmapping_empty_ok_counterexample :
    (JVal.num 5).isObj = false ∧
    Table.delete ([] : List Record) (JVal.num 5) = .ok ([], 0) :=
  ⟨rfl, rfl⟩

/-- C4 (amended): delete validates nothing up front; a non-mapping query
succeeds with count 0 on an empty collection, and on a non-empty collection
raises AttributeError (not the TypeError used for InvalidArgument elsewhere)
when the first record is examined, leaving the records unchanged since the
reassignment of `self.records` never happens. -/
theorem delete_lazy_validation (records : List Record) (q : JVal)
    (h : q.isObj = false) :
    (records = [] → Table.delete records q = .ok ([], 0)) ∧
    (records ≠ [] → Table.delete records q = .error .attributeError) := by
  constructor
  · intro he
    subst he
    rfl
  · intro hne
    cases records with
    | nil => exact absurd rfl hne
    | cons r rest =>
      cases q with
      | obj fs => simp [JVal.isObj] at h
      | null => rfl
      | bool b => rfl
      | num n => rfl
      | str s => rfl
      | arr xs => rfl

/-- C4 witness: the amended statement at a one-record collection and the
non-mapping query 5. -/
theorem delete_lazy_validation_witness :
    Table.delete [[("a", JVal.num 1)]] (JVal.num 5) = .error PyErr.attributeError :=
  (delete_lazy_validation [[("a", JVal.num 1)]] (JVal.num 5) (by decide)).2 (by decide)

/-- C5 counterexample: the document is a top-level object whose value is the
number 5 — not an array of mappings — yet load succeeds and creates the
collection "a" with records 5: the source assigns `table.records = records`
without any shape validation. The claim states load fails and creates no
collection. -/
theorem load_accepts_nonarray_records_counterexample :
    Database.load_from_file [] (.ok (JVal.obj [("a", JVal.num 5)])) =
      ([("a", JVal.num 5)], none) ∧
    ([("a", JVal.num 5)] : DB) ≠ ([] : DB) :=
  ⟨rfl, by decide⟩

/-- C5 (amended): only the top level of the document is shape-checked, and
only incidentally: a missing file or invalid JSON propagates the read/parse
error with the store unchanged, a parsed document that is not a mapping
fails with AttributeError at `data.items()` with the store unchanged, but
the values bound to top-level keys are NOT validated — an object binding a
fresh name to a number, string or any other value loads successfully and
creates a collection whose records attribute is that value. -/
theorem load_top_level_shape_only (db : DB) :
    (∀ e, Database.load_from_file db (.error e) = (db, some e)) ∧
    (∀ v, v.isObj = false →
      Database.load_from_file db (.ok v) = (db, some .attributeError)) ∧
    (∀ name v, hasTable db name = false →
      Database.load_from_file db (.ok (.obj [(name, v)])) =
        (db ++ [(name, v)], none)) := by
  refine ⟨fun e => rfl, ?_, ?_⟩
  · intro v h
    cases v with
    | obj fs => simp [JVal.isObj] at h
    | null => rfl
    | bool b => rfl
    | num n => rfl
    | str s => rfl
    | arr xs => rfl
  · intro name v h
    show Database.loadGo db [(name, v)] = _
    simp [Database.loadGo, h]

/-- C5 witness: the amended statement at the empty store, a parse failure, a
top-level array, and a string-valued key. -/
theorem load_top_level_shape_only_witness :
    Database.load_from_file [] (.error PyErr.jsonDecodeError) =
      ([], some PyErr.jsonDecodeError) ∧
    Database.load_from_file [] (.ok (JVal.arr [])) =
      ([], some PyErr.attributeError) ∧
    Database.load_from_file [] (.ok (JVal.obj [("a", JVal.str "x")])) =
      ([("a", JVal.str "x")], none) :=
  ⟨(load_top_level_shape_only []).1 PyErr.jsonDecodeError,
   (load_top_level_shape_only []).2.1 (JVal.arr []) rfl,
   (load_top_level_shape_only []).2.2 "a" (JVal.str "x") rfl⟩

/-- C3 counterexample: the store already holds collection "b"; loading a
document with keys "a" then "b" fails on the collision at "b", but the
collection created for "a" remains — the store is NOT as it was before the
call, against the claim that a failing load leaves the store fully
unchanged. -/
theorem load_partial_on_collision_counterexample :
    (Database.load_from_file [("b", JVal.arr [])]
      (.ok (JVal.obj [("a", JVal.arr []), ("b", JVal.arr [])]))).2 =
        some PyErr.valueError ∧
    (Database.load_from_file [("b", JVal.arr [])]
      (.ok (JVal.obj [("a", JVal.arr []), ("b", JVal.arr [])]))).1 ≠
        [("b", JVal.arr [])] :=
  ⟨rfl, by decide⟩

/-- C3 (amended): load is atomic only up to the first collision. Failures
that precede the loop (missing file, invalid JSON, non-mapping document)
leave the store unchanged; otherwise the store ends as the original
extended by exactly the document's entries before the first key whose name
collides (all of them when no collision occurs, in which case the call
succeeds): a collision discovered after earlier keys were processed leaves
those earlier collections in the store. -/
theorem load_prefix_on_failure :
    (∀ (db : DB) (e : PyErr), Database.load_from_file db (.error e) = (db, some e)) ∧
    (∀ (db : DB) (v : JVal), v.isObj = false →
      Database.load_from_file db (.ok v) = (db, some .attributeError)) ∧
    (∀ (db : DB) (entries : List (String × JVal)), ∃ pre post,
      entries = pre ++ post ∧
      (Database.loadGo db entries).1 = db ++ pre ∧
      ((Database.loadGo db entries).2 = none → post = [] ∧
        (Database.loadGo db entries).1 = db ++ entries) ∧
      (∀ e, (Database.loadGo db entries).2 = some e →
        e = .valueError ∧ ∃ name v rest, post = (name, v) :: rest ∧
          hasTable (db ++ pre) name = true)) := by
  refine ⟨fun db e => rfl, ?_, ?_⟩
  · intro db v h
    cases v with
    | obj fs => simp [JVal.isObj] at h
    | null => rfl
    | bool b => rfl
    | num n => rfl
    | str s => rfl
    | arr xs => rfl
  · intro db entries
    obtain ⟨pre, post, h1, h2, h3, h4⟩ := Database.loadGo_prefix entries db
    refine ⟨pre, post, h1, h2, fun hn => ⟨h3 hn, ?_⟩, h4⟩
    rw [h2]
    rw [h1, h3 hn, List.append_nil]

/-- C3 witness: the amended statement applied at a parse failure, a
top-level array, and a concrete one-entry document. -/
theorem load_prefix_on_failure_witness :
    Database.load_from_file [] (.error PyErr.ioError) = ([], some PyErr.ioError) ∧
    Database.load_from_file [] (.ok (JVal.arr [])) = ([], some PyErr.attributeError) ∧
    (∃ pre post,
      ([(("a" : String), JVal.arr [])] : List (String × JVal)) = pre ++ post ∧
      (Database.loadGo [] [("a", JVal.arr [])]).1 = [] ++ pre ∧
      ((Database.loadGo [] [("a", JVal.arr [])]).2 = none → post = [] ∧
        (Database.loadGo [] [("a", JVal.arr [])]).1 = [] ++ [("a", JVal.arr [])]) ∧
      (∀ e, (Database.loadGo [] [("a", JVal.arr [])]).2 = some e →
        e = .valueError ∧ ∃ name v rest, post = (name, v) :: rest ∧
          hasTable ([] ++ pre) name = true)) :=
  ⟨load_prefix_on_failure.1 [] PyErr.ioError,
   load_prefix_on_failure.2.1 [] (JVal.arr []) rfl,
   load_prefix_on_failure.2.2 [] [("a", JVal.arr [])]⟩

/-- C6: persistence round-trip. Saving a store whose collection names are
unique (an invariant of the Python tables dict) and loading the document
into a fresh empty store succeeds and reproduces the store exactly: every
collection reappears under its name with the identical ordered record list.
The document is modelled at the parsed-JSON level, so records are
JSON-representable by construction. -/
theorem save_load_round_trip (db : DB) (hnd : (db.map Prod.fst).Nodup) :
    Database.load_from_file [] (.ok (Database.save_to_file db)) = (db, none) := by
  show Database.loadGo [] db = (db, none)
  rw [Database.loadGo_fresh db [] (fun kv _ => rfl) hnd]
  simp

/-- C6 witness: the round-trip at a two-collection store. -/
theorem save_load_round_trip_witness :
    Database.load_from_file []
      (.ok (Database.save_to_file
        [("users", JVal.arr [JVal.obj [("age", JVal.num 17)]]),
         ("empty", JVal.arr [])])) =
      ([("users", JVal.arr [JVal.obj [("age", JVal.num 17)]]),
        ("empty", JVal.arr [])], none) :=
  save_load_round_trip
    [("users", JVal.arr [JVal.obj [("age", JVal.num 17)]]), ("empty", JVal.arr [])]
    (by decide)

/-- C7: update(query, patch) with dict arguments returns the count of
records matching the query in their pre-update state, leaves non-matching
records exactly as they were, and replaces each matching record by its
pre-update mapping overridden by the patch. The result list is a map over
the pre-state, so each record's match is decided on its own pre-update
state and records do not influence each other within one call. The final
conjunct characterises the override: a key bound by the patch gets the
patch's value, every other key keeps the record's value. -/
theorem update_semantics (records : List Record) (qf pf : Record)
    (hnd : (pf.map Prod.fst).Nodup) :
    Table.update records (.obj qf) (.obj pf) =
      .ok (records.map (fun r => if matchesQ r qf then dictUpdate r pf else r),
        (records.filter (fun r => matchesQ r qf)).length) ∧
    ∀ r k, getKey (dictUpdate r pf) k =
      match getKey pf k with
      | some v => some v
      | none => getKey r k := by
  constructor
  · show Except.ok (Table.updateGo qf pf records) = _
    rw [Table.updateGo_eq]
  · intro r k
    rw [dictUpdate]
    have h2 := getKey_dictMerge r pf k hnd
    cases hg : getKey pf k with
    | some v =>
      rw [hg] at h2
      rw [h2]
    | none =>
      rw [hg] at h2
      rw [h2]

/-- C7 witness: the update of the spec's example — patching age 17 onto the
record matching name "A" — leaves the non-matching record untouched and
returns 1. -/
theorem update_semantics_witness :
    Table.update [[("name", JVal.str "A")], [("name", JVal.str "B")]]
      (JVal.obj [("name", JVal.str "A")]) (JVal.obj [("age", JVal.num 17)]) =
      .ok ([[("name", JVal.str "A"), ("age", JVal.num 17)], [("name", JVal.str "B")]],
        1) := by
  have h := update_semantics [[("name", JVal.str "A")], [("name", JVal.str "B")]]
    [("name", JVal.str "A")] [("age", JVal.num 17)] (by decide)
  rw [h.1]
  rfl

/-- C8: delete with the empty query removes every record and returns the
pre-call record count; in general delete with a dict query keeps exactly
the non-matching records in their relative order (the remaining list is the
match-filtered original, a sublist of it) and returns the number of
removed, i.e. matching, records. -/
theorem delete_count_and_order (records : List Record) (qf : Record) :
    Table.delete records (.obj []) = .ok ([], records.length) ∧
    Table.delete records (.obj qf) = .ok (Table.deleteD records qf) ∧
    (Table.deleteD records qf).1 = records.filter (fun r => !matchesQ r qf) ∧
    (Table.deleteD records qf).2 =
      (records.filter (fun r => matchesQ r qf)).length ∧
    (Table.deleteD records qf).1.Sublist records := by
  refine ⟨?_, ?_, rfl, Table.deleteD_count records qf, List.filter_sublist records⟩
  · cases records with
    | nil => rfl
    | cons r rest =>
      show Except.ok (Table.deleteD (r :: rest) []) = _
      rw [Table.deleteD_eq]
      simp [matchesQ_nil]
  · cases records with
    | nil =>
      show Except.ok ([], 0) = _
      rw [Table.deleteD_eq]
      rfl
    | cons r rest => rfl

/-- C9: `not query` in find is Python truthiness, so every falsy argument —
None (the default), False, 0, the empty string, the empty list, the empty
dict — takes the return-all branch: find returns every stored record in
insertion order (as deep copies, which at the value level are the records
themselves) and never raises, even though a falsy non-mapping is not a
valid query. -/
theorem find_falsy_returns_all (records : List Record) (v : JVal)
    (h : v.falsy = true) :
    Table.find records none = .ok records ∧
    Table.find records (some v) = .ok records := by
  refine ⟨rfl, ?_⟩
  simp [Table.find, h]

/-- C9 witness: find with the falsy non-mapping arguments 0, "" and [] on a
one-record collection returns the record. -/
theorem find_falsy_returns_all_witness :
    Table.find [[("a", JVal.num 1)]] (some (JVal.num 0)) = .ok [[("a", JVal.num 1)]] ∧
    Table.find [[("a", JVal.num 1)]] (some (JVal.str "")) =
      .ok [[("a", JVal.num 1)]] ∧
    Table.find [[("a", JVal.num 1)]] (some (JVal.arr [])) =
      .ok [[("a", JVal.num 1)]] :=
  ⟨(find_falsy_returns_all [[("a", JVal.num 1)]] (JVal.num 0) rfl).2,
   (find_falsy_returns_all [[("a", JVal.num 1)]] (JVal.str "") rfl).2,
   (find_falsy_returns_all [[("a", JVal.num 1)]] (JVal.arr []) rfl).2⟩

/-- C10: update with an empty patch dict is a pure match counter: the
record list after the call is exactly the list before it (merging an empty
dict into a record changes nothing), and the returned count is the number
of records matching the query. -/
theorem update_empty_patch_pure_count (records : List Record) (qf : Record) :
    Table.update records (.obj qf) (.obj []) =
      .ok (records, (records.filter (fun r => matchesQ r qf)).length) := by
  show Except.ok (Table.updateGo qf [] records) = _
  rw [Table.updateGo_eq]
  simp [dictUpdate, dictMerge_nil]

/-- A concrete heap for the update-aliasing scenario: address 1 holds the
stored record (a dict with field "name" referring to the string at address
2), address 4 holds the patch dict whose field "tags" refers to the mutable
list at address 3, and address 5 holds the empty query dict. -/
def exHeap : Heap :=
  [HObj.prim (JVal.num 1),
   HObj.dict [("name", 2)],
   HObj.prim (JVal.str "x"),
   HObj.list [0],
   HObj.dict [("tags", 3)],
   HObj.dict []]

/-- The heap after `update(\x7b\x7d, \x7b"tags": [1]\x7d)` on the table holding the
record at address 1: the record's dict now binds "tags" to address 3 — the
very list object inside the caller's patch. -/
def exHeapAfter : Heap :=
  [HObj.prim (JVal.num 1),
   HObj.dict [("name", 2), ("tags", 3)],
   HObj.prim (JVal.str "x"),
   HObj.list [0],
   HObj.dict [("tags", 3)],
   HObj.dict []]

/-- C2 counterexample: after the update, mutating the list nested inside the
caller's patch (appending a second element to the object at address 3, as
Python `patch["tags"].append(1)` would) changes the value of the STORED
record: its readback flips from tags [1] to tags [1, 1]. The claim states
that stored records share no structure with the patch and that mutating a
value nested inside the patch leaves every stored record unchanged; the
code installs the patch's references without copying, so it fails here. -/
theorem update_patch_alias_mutation_counterexample :
    updateH 10 exHeap [1] 5 4 = some (exHeapAfter, 1) ∧
    readVal 10 exHeapAfter 1 =
      some (JVal.obj [("name", JVal.str "x"), ("tags", JVal.arr [JVal.num 1])]) ∧
    readVal 10 (Heap.mutate exHeapAfter 3 (HObj.list [0, 0])) 1 =
      some (JVal.obj
        [("name", JVal.str "x"), ("tags", JVal.arr [JVal.num 1, JVal.num 1])]) ∧
    readVal 10 (Heap.mutate exHeapAfter 3 (HObj.list [0, 0])) 1 ≠
      readVal 10 exHeapAfter 1 :=
  ⟨rfl, rfl, rfl, by decide⟩

/-- C2 (amended): `record.update(new_data)` copies the patch's top-level
BINDINGS, not the objects they refer to. After the merge, every key bound
by the patch is bound in the record to the very same address (so mutating
that object through the patch is visible through the record and vice
versa), while the record dict and the patch dict remain distinct objects:
rewriting the patch dict's own field list afterwards (adding, removing or
rebinding its keys) leaves the record's field list unchanged. -/
theorem update_installs_patch_references (h : Heap) (ra pa : Addr)
    (rf pf : List (String × Addr)) (hr : h.get? ra = some (.dict rf))
    (hp : h.get? pa = some (.dict pf)) (hne : ra ≠ pa)
    (hnd : (pf.map Prod.fst).Nodup) :
    dictUpdateH h ra pa = some (h.set ra (.dict (dictMerge rf pf))) ∧
    (∀ k a, getKey pf k = some a → getKey (dictMerge rf pf) k = some a) ∧
    (∀ gs, (Heap.mutate (h.set ra (.dict (dictMerge rf pf))) pa (.dict gs)).get? ra =
      some (.dict (dictMerge rf pf))) := by
  refine ⟨?_, fun k a ha => getKey_dictMerge_mem rf pf k a hnd ha, ?_⟩
  · unfold dictUpdateH
    rw [hr, hp]
  · intro gs
    have hlt : ra < h.length := by
      rw [List.get?_eq_getElem?, List.getElem?_eq_some] at hr
      exact hr.1
    show ((h.set ra (.dict (dictMerge rf pf))).set pa (.dict gs)).get? ra = _
    rw [List.get?_eq_getElem?, List.getElem?_set_ne (Ne.symm hne)]
    simp [List.getElem?_set_self, hlt]

/-- C2 witness: the amended statement at the concrete heap: the merge
rewrites the record cell, the record's "tags" binding is the patch's own
address 3, and clearing the patch dict's bindings afterwards leaves the
record's field list intact. -/
theorem update_installs_patch_references_witness :
    dictUpdateH exHeap 1 4 =
      some (exHeap.set 1 (.dict (dictMerge [("name", 2)] [("tags", 3)]))) ∧
    getKey (dictMerge [("name", 2)] [("tags", 3)]) "tags" = some 3 ∧
    (Heap.mutate (exHeap.set 1 (.dict (dictMerge [("name", 2)] [("tags", 3)]))) 4
        (.dict [])).get? 1 =
      some (.dict (dictMerge [("name", 2)] [("tags", 3)])) := by
  have h := update_installs_patch_references exHeap 1 4 [("name", 2)] [("tags", 3)]
    rfl rfl (by decide) (by decide)
  exact ⟨h.1, h.2.1 "tags" 3 rfl, h.2.2 []⟩

end DummyDB
